import Mathlib

/-!
Shallow embedding of the `lazaro` break-scheduling core
(`crates/lazaro-core/src/{config,timer,analytics,profile}.rs`) and proofs
together with proofs about its claimed behaviour.

Machine integers (`u64`, `u32`, `u8`) are modelled as `Nat`; `i64` values are
modelled as `Int`, with the Rust `as i64` / `as u64` casts made explicit.
Rust's saturating arithmetic becomes `satAdd64` (capped at `2^64 - 1`) and
`Nat` subtraction (which already saturates at zero).  Rust's signed `/` on
`i64` truncates toward zero, which is `Int.tdiv`.  Stateful methods become
functions returning the updated state together with their result.
-/

namespace Lazaro

/-- Largest `u64` value. -/
def U64_MAX : Nat := 2 ^ 64 - 1

/-- `u64::saturating_add`. -/
def satAdd64 (a b : Nat) : Nat := min (a + b) U64_MAX

/-- The Rust cast `x as i64` applied to a `u64` value (two's complement
reinterpretation), totalised over `Nat` by first reducing mod `2^64`. -/
def i64OfU64 (n : Nat) : Int :=
  if n % 2 ^ 64 < 2 ^ 63 then ((n % 2 ^ 64 : Nat) : Int)
  else ((n % 2 ^ 64 : Nat) : Int) - 2 ^ 64

/-- The Rust cast `x as u64` applied to an `i64` value. -/
def u64OfI64 (x : Int) : Nat := (x % 2 ^ 64).toNat

/-- `config.rs`: `BreakTimerSettings`. -/
structure BreakTimerSettings where
  interval_seconds : Nat
  duration_seconds : Nat
  snooze_seconds : Nat
  enabled : Bool
deriving DecidableEq

/-- `BreakTimerSettings::new`. -/
def BreakTimerSettings.new (interval_seconds duration_seconds snooze_seconds : Nat) :
    BreakTimerSettings :=
  { interval_seconds, duration_seconds, snooze_seconds, enabled := true }

/-- `config.rs`: `DailyLimitSettings`. -/
structure DailyLimitSettings where
  limit_seconds : Nat
  snooze_seconds : Nat
  reset_hour_local : Nat
  reset_minute_local : Nat
  enabled : Bool
deriving DecidableEq

/-- `DailyLimitSettings::reset_offset_seconds`. -/
def DailyLimitSettings.reset_offset_seconds (s : DailyLimitSettings) : Nat :=
  s.reset_hour_local * 3600 + s.reset_minute_local * 60

/-- `config.rs`: `BlockLevel`. -/
inductive BlockLevel
  | Soft
  | Medium
  | Strict
deriving DecidableEq

/-- `config.rs`: `NotificationSettings`. -/
structure NotificationSettings where
  desktop_enabled : Bool
  overlay_enabled : Bool
  sound_enabled : Bool
  sound_theme : String
deriving DecidableEq

/-- `config.rs`: `StartupSettings`. -/
structure StartupSettings where
  xdg_autostart_enabled : Bool
  systemd_user_enabled : Bool
deriving DecidableEq

/-- `config.rs`: `Settings`. -/
structure Settings where
  micro : BreakTimerSettings
  rest : BreakTimerSettings
  daily_limit : DailyLimitSettings
  block_level : BlockLevel
  notifications : NotificationSettings
  startup : StartupSettings
  active_profile_id : String
deriving DecidableEq

/-- `impl Default for Settings`. -/
def Settings.default : Settings where
  micro := BreakTimerSettings.new 180 20 150
  rest := BreakTimerSettings.new 2700 300 180
  daily_limit :=
    { limit_seconds := 14400
      snooze_seconds := 1200
      reset_hour_local := 4
      reset_minute_local := 0
      enabled := true }
  block_level := BlockLevel.Medium
  notifications :=
    { desktop_enabled := true
      overlay_enabled := true
      sound_enabled := true
      sound_theme := "default" }
  startup := { xdg_autostart_enabled := true, systemd_user_enabled := false }
  active_profile_id := "default"

/-- `timer.rs`: `BreakKind`. -/
inductive BreakKind
  | Micro
  | Rest
  | DailyLimit
deriving DecidableEq

/-- `timer.rs`: `BreakOutcome`. -/
inductive BreakOutcome
  | Completed
  | Snoozed
  | Skipped
deriving DecidableEq

/-- `timer.rs`: `EngineEvent`. -/
inductive EngineEvent
  | BreakDue (kind : BreakKind)
  | BreakStarted (kind : BreakKind)
  | BreakCompleted (kind : BreakKind)
  | BreakSnoozed (kind : BreakKind) (until_instant : Nat)
  | DailyReset
deriving DecidableEq

/-- `timer.rs`: `OngoingBreak`. -/
structure OngoingBreak where
  kind : BreakKind
  remaining_seconds : Nat
deriving DecidableEq

/-- `timer.rs`: `TimerEngine`. -/
structure TimerEngine where
  settings : Settings
  micro_active : Nat
  rest_active : Nat
  daily_active : Nat
  micro_snooze_until : Option Nat
  rest_snooze_until : Option Nat
  daily_snooze_until : Option Nat
  active_break : Option OngoingBreak
  last_reset_bucket : Int
deriving DecidableEq

namespace TimerEngine

/-- `TimerEngine::daily_bucket`: `((now as i64 - offset as i64) / 86_400) as i64`,
with Rust's truncating `i64` division (`Int.tdiv`). -/
def daily_bucket (now_local_unix reset_offset_seconds : Nat) : Int :=
  Int.tdiv (i64OfU64 now_local_unix - (reset_offset_seconds : Int)) 86400

/-- `TimerEngine::new`. -/
def new (settings : Settings) (now_local_unix : Nat) : TimerEngine where
  settings := settings
  micro_active := 0
  rest_active := 0
  daily_active := 0
  micro_snooze_until := none
  rest_snooze_until := none
  daily_snooze_until := none
  active_break := none
  last_reset_bucket := daily_bucket now_local_unix settings.daily_limit.reset_offset_seconds

/-- `TimerEngine::active_break_info`. -/
def active_break_info (e : TimerEngine) : Option (BreakKind × Nat) :=
  e.active_break.map fun active => (active.kind, active.remaining_seconds)

/-- `TimerEngine::kind_priority`. -/
def kind_priority : BreakKind → Nat
  | BreakKind.Micro => 0
  | BreakKind.Rest => 1
  | BreakKind.DailyLimit => 2

/-- `TimerEngine::snooze_remaining`: `until.map(|v| v.saturating_sub(now)).unwrap_or(0)`. -/
def snooze_remaining (until? : Option Nat) (now_local_unix : Nat) : Nat :=
  (until?.map fun value => value - now_local_unix).getD 0

/-- `TimerEngine::is_snoozed`: `until.is_some_and(|v| now < v)`. -/
def is_snoozed (until? : Option Nat) (now_local_unix : Nat) : Bool :=
  match until? with
  | none => false
  | some value => decide (now_local_unix < value)

/-- `TimerEngine::seconds_until_next_reset`. -/
def seconds_until_next_reset (now_local_unix reset_offset_seconds : Nat) : Nat :=
  let current_bucket := daily_bucket now_local_unix reset_offset_seconds
  let next_reset : Int := (current_bucket + 1) * 86400 + (reset_offset_seconds : Int)
  if next_reset ≤ i64OfU64 now_local_unix then 0
  else u64OfI64 next_reset - now_local_unix

/-- Sort key used by `next_break_eta`'s `min_by_key`: `(countdown, kind_priority)`. -/
def etaKey (p : BreakKind × Nat) : Nat × Nat := (p.2, kind_priority p.1)

/-- Strict lexicographic comparison of `min_by_key` sort keys. -/
def etaKeyLt (a b : Nat × Nat) : Prop := a.1 < b.1 ∨ (a.1 = b.1 ∧ a.2 < b.2)

instance (a b : Nat × Nat) : Decidable (etaKeyLt a b) := by
  unfold etaKeyLt; infer_instance

/-- Rust's `Iterator::min_by_key` (first element with minimal key wins ties). -/
def minByKey (l : List (BreakKind × Nat)) : Option (BreakKind × Nat) :=
  match l with
  | [] => none
  | x :: xs =>
    some (xs.foldl (fun best y => if etaKeyLt (etaKey y) (etaKey best) then y else best) x)

/-- `TimerEngine::next_break_eta`. -/
def next_break_eta (e : TimerEngine) (now_local_unix : Nat) : Option (BreakKind × Nat) :=
  if e.active_break.isSome then none
  else
    let candidates : List (BreakKind × Nat) :=
      (if e.settings.micro.enabled then
        [(BreakKind.Micro,
          max (e.settings.micro.interval_seconds - e.micro_active)
            (snooze_remaining e.micro_snooze_until now_local_unix))]
      else []) ++
      (if e.settings.rest.enabled then
        [(BreakKind.Rest,
          max (e.settings.rest.interval_seconds - e.rest_active)
            (snooze_remaining e.rest_snooze_until now_local_unix))]
      else []) ++
      (if e.settings.daily_limit.enabled then
        let countdown :=
          max (e.settings.daily_limit.limit_seconds - e.daily_active)
            (snooze_remaining e.daily_snooze_until now_local_unix)
        let until_reset :=
          seconds_until_next_reset now_local_unix e.settings.daily_limit.reset_offset_seconds
        if countdown < until_reset then [(BreakKind.DailyLimit, countdown)] else []
      else [])
    minByKey candidates

/-- `TimerEngine::maybe_daily_reset` (returns the updated engine and whether a
reset happened). -/
def maybe_daily_reset (e : TimerEngine) (now_local_unix : Nat) : TimerEngine × Bool :=
  let bucket := daily_bucket now_local_unix e.settings.daily_limit.reset_offset_seconds
  if bucket ≠ e.last_reset_bucket then
    ({ e with last_reset_bucket := bucket, daily_active := 0, daily_snooze_until := none }, true)
  else (e, false)

/-- `TimerEngine::next_due`. -/
def next_due (e : TimerEngine) (now_local_unix : Nat) : Option BreakKind :=
  if e.settings.micro.enabled = true ∧ e.settings.micro.interval_seconds ≤ e.micro_active ∧
      is_snoozed e.micro_snooze_until now_local_unix = false then
    some BreakKind.Micro
  else if e.settings.rest.enabled = true ∧ e.settings.rest.interval_seconds ≤ e.rest_active ∧
      is_snoozed e.rest_snooze_until now_local_unix = false then
    some BreakKind.Rest
  else if e.settings.daily_limit.enabled = true ∧
      e.settings.daily_limit.limit_seconds ≤ e.daily_active ∧
      is_snoozed e.daily_snooze_until now_local_unix = false then
    some BreakKind.DailyLimit
  else
    none

/-- `TimerEngine::start_break`. -/
def start_break (e : TimerEngine) (kind : BreakKind) : TimerEngine × List EngineEvent :=
  if e.active_break.isSome then (e, [])
  else
    let duration :=
      match kind with
      | BreakKind.Micro => e.settings.micro.duration_seconds
      | BreakKind.Rest => e.settings.rest.duration_seconds
      | BreakKind.DailyLimit => 60
    ({ e with active_break := some ⟨kind, duration⟩ }, [EngineEvent.BreakStarted kind])

/-- `TimerEngine::complete_break`. -/
def complete_break (e : TimerEngine) (kind : BreakKind) : TimerEngine :=
  match kind with
  | BreakKind.Micro => { e with micro_active := 0 }
  | BreakKind.Rest => { e with rest_active := 0, micro_active := 0 }
  | BreakKind.DailyLimit => { e with daily_active := 0, rest_active := 0, micro_active := 0 }

/-- `TimerEngine::tick_break`. -/
def tick_break (e : TimerEngine) (elapsed_seconds : Nat) : TimerEngine × List EngineEvent :=
  match e.active_break with
  | none => (e, [])
  | some active =>
    if active.remaining_seconds ≤ elapsed_seconds then
      (complete_break { e with active_break := none } active.kind,
        [EngineEvent.BreakCompleted active.kind])
    else
      ({ e with active_break := some ⟨active.kind, active.remaining_seconds - elapsed_seconds⟩ },
        [])

/-- `TimerEngine::snooze`. -/
def snooze (e : TimerEngine) (kind : BreakKind) (now_local_unix : Nat) :
    TimerEngine × Option EngineEvent :=
  let until_instant :=
    match kind with
    | BreakKind.Micro => satAdd64 now_local_unix e.settings.micro.snooze_seconds
    | BreakKind.Rest => satAdd64 now_local_unix e.settings.rest.snooze_seconds
    | BreakKind.DailyLimit => satAdd64 now_local_unix e.settings.daily_limit.snooze_seconds
  let e' :=
    match kind with
    | BreakKind.Micro => { e with micro_snooze_until := some until_instant }
    | BreakKind.Rest => { e with rest_snooze_until := some until_instant }
    | BreakKind.DailyLimit => { e with daily_snooze_until := some until_instant }
  (e', some (EngineEvent.BreakSnoozed kind until_instant))

/-- The engine state `on_activity` evaluates `next_due` on: after the possible
daily reset, with all three counters saturating-incremented. -/
def postActivityState (e : TimerEngine) (active_seconds now_local_unix : Nat) : TimerEngine :=
  let e1 := (e.maybe_daily_reset now_local_unix).1
  { e1 with
    micro_active := satAdd64 e1.micro_active active_seconds
    rest_active := satAdd64 e1.rest_active active_seconds
    daily_active := satAdd64 e1.daily_active active_seconds }

/-- `TimerEngine::on_activity`. -/
def on_activity (e : TimerEngine) (active_seconds now_local_unix : Nat) :
    TimerEngine × List EngineEvent :=
  let r := e.maybe_daily_reset now_local_unix
  let events0 := if r.2 then [EngineEvent.DailyReset] else []
  if active_seconds = 0 ∨ r.1.active_break.isSome then (r.1, events0)
  else
    let e2 := e.postActivityState active_seconds now_local_unix
    match e2.next_due now_local_unix with
    | some kind =>
      if e2.settings.block_level = BlockLevel.Strict then
        ((e2.start_break kind).1,
          events0 ++ [EngineEvent.BreakDue kind] ++ (e2.start_break kind).2)
      else (e2, events0 ++ [EngineEvent.BreakDue kind])
    | none => (e2, events0)

end TimerEngine

/-- `analytics.rs`: `DailyAggregate` (with `Default` = all zeroes). -/
structure DailyAggregate where
  active_seconds : Nat
  micro_done : Nat
  rest_done : Nat
  daily_limit_hits : Nat
  skipped : Nat
deriving DecidableEq

instance : Zero DailyAggregate := ⟨⟨0, 0, 0, 0, 0⟩⟩

/-- Componentwise addition of daily aggregates (used to state the weekly
summary as a sum). -/
def DailyAggregate.add (a b : DailyAggregate) : DailyAggregate :=
  ⟨a.active_seconds + b.active_seconds, a.micro_done + b.micro_done,
    a.rest_done + b.rest_done, a.daily_limit_hits + b.daily_limit_hits,
    a.skipped + b.skipped⟩

instance : Add DailyAggregate := ⟨DailyAggregate.add⟩

theorem DailyAggregate.add_mk (a₁ a₂ a₃ a₄ a₅ b₁ b₂ b₃ b₄ b₅ : Nat) :
    (⟨a₁, a₂, a₃, a₄, a₅⟩ + ⟨b₁, b₂, b₃, b₄, b₅⟩ : DailyAggregate) =
      ⟨a₁ + b₁, a₂ + b₂, a₃ + b₃, a₄ + b₄, a₅ + b₅⟩ := rfl

theorem DailyAggregate.zero_def : (0 : DailyAggregate) = ⟨0, 0, 0, 0, 0⟩ := rfl

instance : AddCommMonoid DailyAggregate where
  add_assoc a b c := by
    cases a; cases b; cases c
    simp only [DailyAggregate.add_mk, DailyAggregate.mk.injEq]
    omega
  zero_add a := by
    cases a
    simp only [DailyAggregate.zero_def, DailyAggregate.add_mk, DailyAggregate.mk.injEq]
    omega
  add_zero a := by
    cases a
    simp only [DailyAggregate.zero_def, DailyAggregate.add_mk, DailyAggregate.mk.injEq]
    omega
  add_comm a b := by
    cases a; cases b
    simp only [DailyAggregate.add_mk, DailyAggregate.mk.injEq]
    omega
  nsmul := nsmulRec

/-- `analytics.rs`: `WeeklySummary` (with `Default` = all zeroes). -/
structure WeeklySummary where
  total_active_seconds : Nat
  micro_done : Nat
  rest_done : Nat
  daily_limit_hits : Nat
  skipped : Nat
deriving DecidableEq

/-- `WeeklySummary::default()`. -/
def WeeklySummary.zero : WeeklySummary := ⟨0, 0, 0, 0, 0⟩

/-- One iteration of the loop in `summarize_week_ending`: add every field of a
daily aggregate into the running summary. -/
def WeeklySummary.addAgg (w : WeeklySummary) (a : DailyAggregate) : WeeklySummary :=
  ⟨w.total_active_seconds + a.active_seconds, w.micro_done + a.micro_done,
    w.rest_done + a.rest_done, w.daily_limit_hits + a.daily_limit_hits,
    w.skipped + a.skipped⟩

/-- `analytics.rs`: `AnalyticsStore`.  The `BTreeMap<i64, DailyAggregate>` is
modelled as an association list; the map invariant (keys strictly increasing,
hence unique) is the separate predicate `AnalyticsStore.Inv`. -/
structure AnalyticsStore where
  by_day : List (Int × DailyAggregate)

/-- The `BTreeMap` key invariant: entries sorted by strictly increasing day. -/
def AnalyticsStore.Inv (s : AnalyticsStore) : Prop :=
  List.Pairwise (fun p q => p.1 < q.1) s.by_day

/-- `BTreeMap::entry(day).or_default()` followed by an update of that entry:
inserts `f 0` at the sorted position if the day is absent, otherwise replaces
the day's aggregate `a` by `f a`. -/
def upsertDay (l : List (Int × DailyAggregate)) (day : Int)
    (f : DailyAggregate → DailyAggregate) : List (Int × DailyAggregate) :=
  match l with
  | [] => [(day, f 0)]
  | (k, a) :: t =>
    if day < k then (day, f 0) :: (k, a) :: t
    else if day = k then (day, f a) :: t
    else (k, a) :: upsertDay t day f

/-- `AnalyticsStore::record_activity`. -/
def AnalyticsStore.record_activity (s : AnalyticsStore) (day_index : Int) (seconds : Nat) :
    AnalyticsStore :=
  ⟨upsertDay s.by_day day_index fun entry =>
    { entry with active_seconds := satAdd64 entry.active_seconds seconds }⟩

/-- `AnalyticsStore::record_break`. -/
def AnalyticsStore.record_break (s : AnalyticsStore) (day_index : Int) (kind : BreakKind)
    (outcome : BreakOutcome) : AnalyticsStore :=
  ⟨upsertDay s.by_day day_index fun entry =>
    match kind, outcome with
    | BreakKind.Micro, BreakOutcome.Completed => { entry with micro_done := entry.micro_done + 1 }
    | BreakKind.Rest, BreakOutcome.Completed => { entry with rest_done := entry.rest_done + 1 }
    | BreakKind.DailyLimit, BreakOutcome.Completed =>
      { entry with daily_limit_hits := entry.daily_limit_hits + 1 }
    | _, BreakOutcome.Skipped => { entry with skipped := entry.skipped + 1 }
    | _, BreakOutcome.Snoozed => entry⟩

/-- `AnalyticsStore::summarize_week_ending`: fold the loop body over the
entries whose day lies in `start..=end_day_index` (in map order, which is what
`BTreeMap::range` iterates). -/
def AnalyticsStore.summarize_week_ending (s : AnalyticsStore) (end_day_index : Int) :
    WeeklySummary :=
  let start := end_day_index - 6
  (s.by_day.filter fun p => decide (start ≤ p.1 ∧ p.1 ≤ end_day_index)).foldl
    (fun summary p => summary.addAgg p.2) WeeklySummary.zero

/-- `profile.rs`: `Profile`. -/
structure Profile where
  id : String
  name : String
  settings : Settings
deriving DecidableEq

/-- `profile.rs`: `ProfileStore`.  The `BTreeMap<String, Profile>` is modelled
as an association list sorted by key (`ProfileStore.Inv`). -/
structure ProfileStore where
  profiles : List (String × Profile)
  active_id : Option String

/-- The `BTreeMap` key invariant for the profile store. -/
def ProfileStore.Inv (s : ProfileStore) : Prop :=
  List.Pairwise (fun p q => p.1 < q.1) s.profiles

/-- `BTreeMap::get` for the profile map. -/
def lookupProfile (l : List (String × Profile)) (id : String) : Option Profile :=
  match l with
  | [] => none
  | (k, p) :: t => if k = id then some p else lookupProfile t id

/-- `BTreeMap::remove` for the profile map (drops the entry with the given
key, if any). -/
def removeProfileKey (l : List (String × Profile)) (id : String) :
    List (String × Profile) :=
  match l with
  | [] => []
  | (k, p) :: t => if k = id then t else (k, p) :: removeProfileKey t id

/-- `BTreeMap::insert` for the profile map (sorted insert / replace). -/
def insertProfile (l : List (String × Profile)) (id : String) (p : Profile) :
    List (String × Profile) :=
  match l with
  | [] => [(id, p)]
  | (k, q) :: t =>
    if id < k then (id, p) :: (k, q) :: t
    else if id = k then (id, p) :: t
    else (k, q) :: insertProfile t id p

/-- `ProfileStore::upsert`. -/
def ProfileStore.upsert (s : ProfileStore) (profile : Profile) : ProfileStore :=
  let profiles := insertProfile s.profiles profile.id profile
  { profiles := profiles
    active_id := if s.active_id = none then some profile.id else s.active_id }

/-- `ProfileStore::remove`: deletes the entry and, when the removed id was the
active one, points `active_id` at `keys().next()` of the remaining map (its
first, i.e. smallest, key). -/
def ProfileStore.remove (s : ProfileStore) (id : String) : ProfileStore × Option Profile :=
  let removed := lookupProfile s.profiles id
  let profiles := removeProfileKey s.profiles id
  let active_id :=
    if s.active_id = some id then (profiles.head?.map Prod.fst) else s.active_id
  (⟨profiles, active_id⟩, removed)

/-- `ProfileStore::activate`. -/
def ProfileStore.activate (s : ProfileStore) (id : String) : ProfileStore × Bool :=
  if (lookupProfile s.profiles id).isSome then ({ s with active_id := some id }, true)
  else (s, false)

namespace TimerEngine

/-! ### Basic frame lemmas about `maybe_daily_reset` -/

theorem maybe_daily_reset_settings (e : TimerEngine) (now : Nat) :
    (e.maybe_daily_reset now).1.settings = e.settings := by
  unfold maybe_daily_reset
  dsimp only
  split <;> rfl

theorem maybe_daily_reset_micro_active (e : TimerEngine) (now : Nat) :
    (e.maybe_daily_reset now).1.micro_active = e.micro_active := by
  unfold maybe_daily_reset
  dsimp only
  split <;> rfl

theorem maybe_daily_reset_rest_active (e : TimerEngine) (now : Nat) :
    (e.maybe_daily_reset now).1.rest_active = e.rest_active := by
  unfold maybe_daily_reset
  dsimp only
  split <;> rfl

theorem maybe_daily_reset_daily_active_le (e : TimerEngine) (now : Nat) :
    (e.maybe_daily_reset now).1.daily_active ≤ e.daily_active := by
  unfold maybe_daily_reset
  dsimp only
  split
  · exact Nat.zero_le _
  · exact Nat.le_refl _

theorem maybe_daily_reset_micro_snooze (e : TimerEngine) (now : Nat) :
    (e.maybe_daily_reset now).1.micro_snooze_until = e.micro_snooze_until := by
  unfold maybe_daily_reset
  dsimp only
  split <;> rfl

theorem maybe_daily_reset_rest_snooze (e : TimerEngine) (now : Nat) :
    (e.maybe_daily_reset now).1.rest_snooze_until = e.rest_snooze_until := by
  unfold maybe_daily_reset
  dsimp only
  split <;> rfl

theorem maybe_daily_reset_active_break (e : TimerEngine) (now : Nat) :
    (e.maybe_daily_reset now).1.active_break = e.active_break := by
  unfold maybe_daily_reset
  dsimp only
  split <;> rfl

theorem maybe_daily_reset_snd (e : TimerEngine) (now : Nat) :
    (e.maybe_daily_reset now).2 =
      decide (daily_bucket now e.settings.daily_limit.reset_offset_seconds ≠
        e.last_reset_bucket) := by
  unfold maybe_daily_reset
  dsimp only
  split <;> simp_all

end TimerEngine

namespace TimerEngine

/-! ### Frame lemmas about `postActivityState` -/

theorem postActivityState_settings (e : TimerEngine) (s now : Nat) :
    (e.postActivityState s now).settings = e.settings := by
  unfold postActivityState
  dsimp only
  exact maybe_daily_reset_settings e now

theorem postActivityState_active_break (e : TimerEngine) (s now : Nat) :
    (e.postActivityState s now).active_break = e.active_break := by
  unfold postActivityState
  dsimp only
  exact maybe_daily_reset_active_break e now

theorem postActivityState_micro_active (e : TimerEngine) (s now : Nat) :
    (e.postActivityState s now).micro_active = satAdd64 e.micro_active s := by
  unfold postActivityState
  dsimp only
  rw [maybe_daily_reset_micro_active]

theorem postActivityState_rest_active (e : TimerEngine) (s now : Nat) :
    (e.postActivityState s now).rest_active = satAdd64 e.rest_active s := by
  unfold postActivityState
  dsimp only
  rw [maybe_daily_reset_rest_active]

theorem postActivityState_micro_snooze (e : TimerEngine) (s now : Nat) :
    (e.postActivityState s now).micro_snooze_until = e.micro_snooze_until := by
  unfold postActivityState
  dsimp only
  exact maybe_daily_reset_micro_snooze e now

theorem postActivityState_rest_snooze (e : TimerEngine) (s now : Nat) :
    (e.postActivityState s now).rest_snooze_until = e.rest_snooze_until := by
  unfold postActivityState
  dsimp only
  exact maybe_daily_reset_rest_snooze e now

theorem start_break_events_of_none (e : TimerEngine) (k : BreakKind)
    (hb : e.active_break = none) :
    (e.start_break k).2 = [EngineEvent.BreakStarted k] := by
  unfold start_break
  dsimp only
  rw [if_neg (by rw [hb]; simp)]

end TimerEngine

open TimerEngine in
/-- **C7.** `on_activity(0, now)` — and likewise any `on_activity` call made
while a break is active — leaves the micro and rest counters unchanged, never
increases the daily counter, and emits no event other than a possible
`DailyReset`. -/
theorem on_activity_idle_or_break_frame (e : TimerEngine) (s now : Nat)
    (h : s = 0 ∨ e.active_break.isSome = true) :
    (e.on_activity s now).1.micro_active = e.micro_active ∧
    (e.on_activity s now).1.rest_active = e.rest_active ∧
    (e.on_activity s now).1.daily_active ≤ e.daily_active ∧
    ((e.on_activity s now).2 = [] ∨ (e.on_activity s now).2 = [EngineEvent.DailyReset]) := by
  unfold on_activity
  dsimp only
  rw [if_pos]
  · refine ⟨maybe_daily_reset_micro_active e now, maybe_daily_reset_rest_active e now,
      maybe_daily_reset_daily_active_le e now, ?_⟩
    split
    · right; rfl
    · left; rfl
  · rcases h with h | h
    · exact Or.inl h
    · right
      rw [maybe_daily_reset_active_break]
      exact h

/-- Witness for C7 at a concrete input. -/
theorem on_activity_idle_or_break_frame_witness :
    ((TimerEngine.new Settings.default 0).on_activity 0 90000).1.micro_active = 0 ∧
    ((TimerEngine.new Settings.default 0).on_activity 0 90000).1.rest_active = 0 ∧
    ((TimerEngine.new Settings.default 0).on_activity 0 90000).1.daily_active ≤ 0 ∧
    (((TimerEngine.new Settings.default 0).on_activity 0 90000).2 = [] ∨
      ((TimerEngine.new Settings.default 0).on_activity 0 90000).2 = [EngineEvent.DailyReset]) :=
  on_activity_idle_or_break_frame (TimerEngine.new Settings.default 0) 0 90000 (Or.inl rfl)

/-- The settings used in the strict-mode scenarios: the defaults with
`BlockLevel::Strict`. -/
def strictSettings : Settings := { Settings.default with block_level := BlockLevel.Strict }

open TimerEngine in
/-- **C1.** Under `BlockLevel::Strict`, with positive activity and no active
break, any position of the event list returned by `on_activity` that holds
`BreakDue(kind)` is immediately followed by `BreakStarted(kind)`. -/
theorem strict_due_then_started (e : TimerEngine) (s now : Nat) (k : BreakKind) (i : Nat)
    (hstrict : e.settings.block_level = BlockLevel.Strict)
    (hs : 0 < s) (hb : e.active_break = none)
    (hi : (e.on_activity s now).2.get? i = some (EngineEvent.BreakDue k)) :
    (e.on_activity s now).2.get? (i + 1) = some (EngineEvent.BreakStarted k) := by
  have hearly : ¬(s = 0 ∨ (e.maybe_daily_reset now).1.active_break.isSome = true) := by
    rintro (h | h)
    · omega
    · rw [maybe_daily_reset_active_break, hb] at h
      simp at h
  rcases hd : (e.postActivityState s now).next_due now with _ | kind
  · -- no due break: only a possible DailyReset is emitted, contradicting `hi`
    have hev : (e.on_activity s now).2 =
        (if (e.maybe_daily_reset now).2 then [EngineEvent.DailyReset] else []) := by
      unfold on_activity
      dsimp only
      rw [if_neg hearly, hd]
    exfalso
    rw [hev] at hi
    revert hi
    split <;> (rcases i with _ | j <;> simp)
  · have hev : (e.on_activity s now).2 =
        (if (e.maybe_daily_reset now).2 then [EngineEvent.DailyReset] else []) ++
          [EngineEvent.BreakDue kind, EngineEvent.BreakStarted kind] := by
      unfold on_activity
      dsimp only
      rw [if_neg hearly, hd]
      dsimp only
      have hbl : (e.postActivityState s now).settings.block_level = BlockLevel.Strict := by
        rw [postActivityState_settings]
        exact hstrict
      rw [if_pos hbl]
      rw [start_break_events_of_none _ _
        (by rw [postActivityState_active_break]; exact hb)]
      simp
    rw [hev] at hi ⊢
    revert hi
    split
    · rcases i with _ | _ | _ | j <;> simp
    · rcases i with _ | _ | j <;> simp

/-- Witness for C1 at a concrete input. -/
theorem strict_due_then_started_witness :
    ((TimerEngine.new strictSettings 0).on_activity 180 180).2.get? (0 + 1) =
      some (EngineEvent.BreakStarted BreakKind.Micro) :=
  strict_due_then_started (TimerEngine.new strictSettings 0) 180 180 BreakKind.Micro 0 rfl
    (by decide) rfl (by decide)

open TimerEngine in
/-- **C8.** From a fresh engine with the default settings (micro interval
180s), `on_activity(179, t)` emits no due event, and the following
`on_activity(1, t + 179)` — cumulative total 180 — makes `BreakDue(Micro)`
fire exactly once across the two calls. -/
theorem micro_due_after_180 (t : Nat) :
    (∀ k, EngineEvent.BreakDue k ∉ ((TimerEngine.new Settings.default t).on_activity 179 t).2) ∧
    (((TimerEngine.new Settings.default t).on_activity 179 t).2 ++
        (((TimerEngine.new Settings.default t).on_activity 179 t).1.on_activity 1
          (t + 179)).2).count (EngineEvent.BreakDue BreakKind.Micro) = 1 := by
  have h1 : ((TimerEngine.new Settings.default t).on_activity 179 t).2 = [] := by
    simp [on_activity, maybe_daily_reset, postActivityState, next_due, is_snoozed,
      TimerEngine.new, Settings.default, BreakTimerSettings.new, satAdd64, U64_MAX,
      DailyLimitSettings.reset_offset_seconds]
  refine ⟨fun k => by rw [h1]; simp, ?_⟩
  rw [h1, List.nil_append]
  simp [on_activity, maybe_daily_reset, postActivityState, next_due, is_snoozed,
    TimerEngine.new, Settings.default, BreakTimerSettings.new, satAdd64, U64_MAX,
    DailyLimitSettings.reset_offset_seconds, start_break]
  split <;> simp [List.count_cons]

/-- The engine used to witness the general discharge rule of C2: a Rest break
with 5 seconds remaining and nonzero counters. -/
def dischargeWitnessEngine : TimerEngine :=
  { TimerEngine.new Settings.default 0 with
    active_break := some ⟨BreakKind.Rest, 5⟩
    micro_active := 42
    rest_active := 77
    daily_active := 99 }

/-- C2's concrete scenario: accumulate 100s of micro activity, run a Rest
break to completion (`tick_break 300` on a 300s Rest break). -/
def restCommitted : TimerEngine × List EngineEvent :=
  ((((TimerEngine.new Settings.default 0).on_activity 100 100).1.start_break
      BreakKind.Rest).1).tick_break 300

open TimerEngine in
/-- **C2.** Completing a break (`tick_break` with `elapsed ≥ remaining`)
emits `BreakCompleted(kind)` and applies the discharge rule: Micro zeroes
only the micro counter, Rest zeroes rest and micro, DailyLimit zeroes all
three.  In particular, right after `BreakCompleted(Rest)` under the default
settings (micro interval 180s), `on_activity(179, ·)` emits no event and the
following `on_activity(1, ·)` emits `BreakDue(Micro)`. -/
theorem tick_break_discharge_rule :
    (∀ (e : TimerEngine) (k : BreakKind) (rem elapsed : Nat),
      e.active_break = some ⟨k, rem⟩ → rem ≤ elapsed →
      (e.tick_break elapsed).2 = [EngineEvent.BreakCompleted k] ∧
      (e.tick_break elapsed).1.active_break = none ∧
      (e.tick_break elapsed).1.micro_active = 0 ∧
      (e.tick_break elapsed).1.rest_active =
        (if k = BreakKind.Micro then e.rest_active else 0) ∧
      (e.tick_break elapsed).1.daily_active =
        (if k = BreakKind.DailyLimit then 0 else e.daily_active)) ∧
    (restCommitted.2 = [EngineEvent.BreakCompleted BreakKind.Rest] ∧
      restCommitted.1.micro_active = 0 ∧
      (restCommitted.1.on_activity 179 500).2 = [] ∧
      ((restCommitted.1.on_activity 179 500).1.on_activity 1 501).2 =
        [EngineEvent.BreakDue BreakKind.Micro]) := by
  constructor
  · intro e k rem elapsed hab hle
    unfold TimerEngine.tick_break
    rw [hab]
    dsimp only
    rw [if_pos hle]
    unfold TimerEngine.complete_break
    cases k <;> simp
  · decide

/-- Witness for C2's quantified part at a concrete input. -/
theorem tick_break_discharge_rule_witness :
    (dischargeWitnessEngine.tick_break 6).2 = [EngineEvent.BreakCompleted BreakKind.Rest] ∧
    (dischargeWitnessEngine.tick_break 6).1.active_break = none ∧
    (dischargeWitnessEngine.tick_break 6).1.micro_active = 0 ∧
    (dischargeWitnessEngine.tick_break 6).1.rest_active =
      (if BreakKind.Rest = BreakKind.Micro then dischargeWitnessEngine.rest_active else 0) ∧
    (dischargeWitnessEngine.tick_break 6).1.daily_active =
      (if BreakKind.Rest = BreakKind.DailyLimit then 0 else dischargeWitnessEngine.daily_active) :=
  tick_break_discharge_rule.1 dischargeWitnessEngine BreakKind.Rest 5 6 rfl (by decide)

open TimerEngine in
/-- **C5 counterexample.** With nothing pending (fresh engine: no due kind, no
active break, no snooze set), `snooze(Micro, 0)` is *not* a no-op: it sets
`micro_snooze_until` and returns a `BreakSnoozed` event. -/
theorem snooze_not_noop :
    (TimerEngine.new Settings.default 0).next_due 0 = none ∧
    (TimerEngine.new Settings.default 0).active_break = none ∧
    (TimerEngine.new Settings.default 0).micro_snooze_until = none ∧
    ((TimerEngine.new Settings.default 0).snooze BreakKind.Micro 0).1.micro_snooze_until =
      some 150 ∧
    ((TimerEngine.new Settings.default 0).snooze BreakKind.Micro 0).2 =
      some (EngineEvent.BreakSnoozed BreakKind.Micro 150) := by
  decide

/-- The per-kind `snooze_until` field of the engine. -/
def TimerEngine.snooze_until_for (e : TimerEngine) : BreakKind → Option Nat
  | BreakKind.Micro => e.micro_snooze_until
  | BreakKind.Rest => e.rest_snooze_until
  | BreakKind.DailyLimit => e.daily_snooze_until

/-- The per-kind `snooze_seconds` setting read by `TimerEngine::snooze`. -/
def TimerEngine.snooze_seconds_for (e : TimerEngine) : BreakKind → Nat
  | BreakKind.Micro => e.settings.micro.snooze_seconds
  | BreakKind.Rest => e.settings.rest.snooze_seconds
  | BreakKind.DailyLimit => e.settings.daily_limit.snooze_seconds

open TimerEngine in
/-- **C5 (amended).** `tick_break` with no active break and `start_break`
while a break is active are exact no-ops returning no events; `snooze`,
however, is never a no-op: it unconditionally sets the kind's
`snooze_until` to `now + snooze_seconds[kind]` (saturating) and returns
`Some(BreakSnoozed)`, while leaving every other engine field — counters,
active break, settings, reset bucket and the other kinds' snoozes —
unchanged. -/
theorem invalid_calls_degrade :
    (∀ (e : TimerEngine) (elapsed : Nat), e.active_break = none →
      e.tick_break elapsed = (e, [])) ∧
    (∀ (e : TimerEngine) (k : BreakKind), e.active_break.isSome = true →
      e.start_break k = (e, [])) ∧
    (∀ (e : TimerEngine) (k : BreakKind) (now : Nat),
      (e.snooze k now).1.snooze_until_for k =
        some (satAdd64 now (e.snooze_seconds_for k)) ∧
      (∀ k', k' ≠ k → (e.snooze k now).1.snooze_until_for k' = e.snooze_until_for k') ∧
      (e.snooze k now).1.settings = e.settings ∧
      (e.snooze k now).1.micro_active = e.micro_active ∧
      (e.snooze k now).1.rest_active = e.rest_active ∧
      (e.snooze k now).1.daily_active = e.daily_active ∧
      (e.snooze k now).1.active_break = e.active_break ∧
      (e.snooze k now).1.last_reset_bucket = e.last_reset_bucket ∧
      (e.snooze k now).2 =
        some (EngineEvent.BreakSnoozed k (satAdd64 now (e.snooze_seconds_for k)))) := by
  refine ⟨?_, ?_, ?_⟩
  · intro e elapsed hab
    unfold TimerEngine.tick_break
    rw [hab]
  · intro e k hab
    unfold TimerEngine.start_break
    rw [if_pos hab]
  · intro e k now
    refine ⟨?_, ?_, ?_⟩
    · cases k <;> rfl
    · intro k' hne
      cases k <;> cases k' <;> first | rfl | exact absurd rfl hne
    · cases k <;> exact ⟨rfl, rfl, rfl, rfl, rfl, rfl, rfl⟩

/-- Witness for C5's amended statement at concrete inputs. -/
theorem invalid_calls_degrade_witness :
    (TimerEngine.new Settings.default 0).tick_break 7 =
      (TimerEngine.new Settings.default 0, []) ∧
    dischargeWitnessEngine.start_break BreakKind.Micro = (dischargeWitnessEngine, []) ∧
    ((TimerEngine.new Settings.default 0).snooze BreakKind.Rest 40).1.snooze_until_for
        BreakKind.Rest =
      some (satAdd64 40 ((TimerEngine.new Settings.default 0).snooze_seconds_for
        BreakKind.Rest)) ∧
    ((TimerEngine.new Settings.default 0).snooze BreakKind.Rest 40).2 =
      some (EngineEvent.BreakSnoozed BreakKind.Rest
        (satAdd64 40 ((TimerEngine.new Settings.default 0).snooze_seconds_for BreakKind.Rest))) :=
  ⟨invalid_calls_degrade.1 (TimerEngine.new Settings.default 0) 7 rfl,
    invalid_calls_degrade.2.1 dischargeWitnessEngine BreakKind.Micro (by decide),
    (invalid_calls_degrade.2.2 (TimerEngine.new Settings.default 0) BreakKind.Rest 40).1,
    (invalid_calls_degrade.2.2 (TimerEngine.new Settings.default 0)
      BreakKind.Rest 40).2.2.2.2.2.2.2.2⟩

namespace TimerEngine

theorem start_break_no_daily_reset (e : TimerEngine) (k : BreakKind) :
    (e.start_break k).2.count EngineEvent.DailyReset = 0 := by
  unfold start_break
  dsimp only
  split <;> simp

/-- `on_activity` emits `DailyReset` exactly when `maybe_daily_reset` fires,
and then exactly once. -/
theorem on_activity_count_daily_reset (e : TimerEngine) (s now : Nat) :
    (e.on_activity s now).2.count EngineEvent.DailyReset =
      (if (e.maybe_daily_reset now).2 then 1 else 0) := by
  unfold on_activity
  dsimp only
  split
  · split <;> simp
  · rcases hd : (e.postActivityState s now).next_due now with _ | kind <;> dsimp only
    · split <;> simp
    · split
      · rw [List.count_append, List.count_append, start_break_no_daily_reset]
        split <;> simp
      · rw [List.count_append]
        split <;> simp

end TimerEngine

/-- The day bucket as C3's words define it: `floor((now − reset_offset) / 86400)`
with mathematical floor division (`Int.fdiv`); compare with the source's
`TimerEngine.daily_bucket`, which truncates toward zero. -/
def specFloorBucket (now_local_unix reset_offset_seconds : Nat) : Int :=
  Int.fdiv (i64OfU64 now_local_unix - (reset_offset_seconds : Int)) 86400

open TimerEngine in
/-- **C3 counterexample.** With the default settings (reset offset 04:00 =
14400s), an engine created at `now = 20000` has `last_reset_bucket = 0`, and
the floor bucket of `now = 10000` is `-1 ≠ 0`; yet `on_activity(0, 10000)`
emits no `DailyReset`, because the code compares buckets computed with
truncating division (`(10000 - 14400) / 86400 = 0` in Rust `i64` division). -/
theorem daily_reset_floor_counterexample :
    specFloorBucket 10000
        (TimerEngine.new Settings.default 20000).settings.daily_limit.reset_offset_seconds ≠
      (TimerEngine.new Settings.default 20000).last_reset_bucket ∧
    ((TimerEngine.new Settings.default 20000).on_activity 0 10000).2.count
      EngineEvent.DailyReset = 0 := by
  decide

open TimerEngine in
/-- **C3 (amended).** With the day bucket computed as the code computes it —
`(now − reset_offset) / 86400` in truncating signed division, which agrees
with the floor whenever `now ≥ reset_offset` — an `on_activity(s, now)` call
whose `now` lies in a different bucket than `last_reset_bucket` emits exactly
one `DailyReset`, and the reset step zeroes the daily counter and daily
snooze while leaving the micro/rest counters and snoozes unchanged; a call in
the same bucket emits no `DailyReset`. -/
theorem daily_reset_exactly_once (e : TimerEngine) (s now : Nat) :
    (daily_bucket now e.settings.daily_limit.reset_offset_seconds ≠ e.last_reset_bucket →
      (e.on_activity s now).2.count EngineEvent.DailyReset = 1 ∧
      (e.maybe_daily_reset now).1.daily_active = 0 ∧
      (e.maybe_daily_reset now).1.daily_snooze_until = none ∧
      (e.maybe_daily_reset now).1.micro_active = e.micro_active ∧
      (e.maybe_daily_reset now).1.rest_active = e.rest_active ∧
      (e.maybe_daily_reset now).1.micro_snooze_until = e.micro_snooze_until ∧
      (e.maybe_daily_reset now).1.rest_snooze_until = e.rest_snooze_until) ∧
    (daily_bucket now e.settings.daily_limit.reset_offset_seconds = e.last_reset_bucket →
      (e.on_activity s now).2.count EngineEvent.DailyReset = 0) := by
  constructor
  · intro hne
    refine ⟨?_, ?_, ?_, maybe_daily_reset_micro_active e now,
      maybe_daily_reset_rest_active e now, maybe_daily_reset_micro_snooze e now,
      maybe_daily_reset_rest_snooze e now⟩
    · rw [on_activity_count_daily_reset, maybe_daily_reset_snd, if_pos (by simpa using hne)]
    · unfold maybe_daily_reset
      dsimp only
      rw [if_pos hne]
    · unfold maybe_daily_reset
      dsimp only
      rw [if_pos hne]
  · intro heq
    rw [on_activity_count_daily_reset, maybe_daily_reset_snd,
      if_neg (by simpa using heq)]

open TimerEngine in
/-- Witness for C3's amended statement: crossing the boundary (fresh engine at
0, call at 200000) emits exactly one `DailyReset`; staying inside the bucket
(call at 20000) emits none. -/
theorem daily_reset_exactly_once_witness :
    ((TimerEngine.new Settings.default 0).on_activity 5 200000).2.count
      EngineEvent.DailyReset = 1 ∧
    ((TimerEngine.new Settings.default 0).on_activity 5 20000).2.count
      EngineEvent.DailyReset = 0 :=
  ⟨((daily_reset_exactly_once (TimerEngine.new Settings.default 0) 5 200000).1
      (by decide)).1,
    (daily_reset_exactly_once (TimerEngine.new Settings.default 0) 5 20000).2 (by decide)⟩

namespace TimerEngine

/-- The three guards `next_due` checks for one kind: enabled, counter at or
above its interval (limit), and not snoozed. -/
def due_test (e : TimerEngine) (k : BreakKind) (now : Nat) : Prop :=
  match k with
  | BreakKind.Micro =>
    e.settings.micro.enabled = true ∧ e.settings.micro.interval_seconds ≤ e.micro_active ∧
      is_snoozed e.micro_snooze_until now = false
  | BreakKind.Rest =>
    e.settings.rest.enabled = true ∧ e.settings.rest.interval_seconds ≤ e.rest_active ∧
      is_snoozed e.rest_snooze_until now = false
  | BreakKind.DailyLimit =>
    e.settings.daily_limit.enabled = true ∧
      e.settings.daily_limit.limit_seconds ≤ e.daily_active ∧
      is_snoozed e.daily_snooze_until now = false

instance (e : TimerEngine) (k : BreakKind) (now : Nat) : Decidable (e.due_test k now) := by
  cases k <;> (unfold due_test; exact inferInstance)

theorem due_test_of_next_due (e : TimerEngine) (now : Nat) (k : BreakKind)
    (h : e.next_due now = some k) : e.due_test k now := by
  unfold next_due at h
  split at h
  · cases h
    assumption
  · split at h
    · cases h
      assumption
    · split at h
      · cases h
        assumption
      · cases h

theorem next_due_of_due_test (e : TimerEngine) (now : Nat) (k : BreakKind)
    (h : e.due_test k now)
    (hhi : ∀ k', kind_priority k' < kind_priority k → ¬e.due_test k' now) :
    e.next_due now = some k := by
  have hm : kind_priority BreakKind.Micro < kind_priority k →
      ¬(e.settings.micro.enabled = true ∧
        e.settings.micro.interval_seconds ≤ e.micro_active ∧
        is_snoozed e.micro_snooze_until now = false) :=
    fun hp => hhi BreakKind.Micro hp
  have hr : kind_priority BreakKind.Rest < kind_priority k →
      ¬(e.settings.rest.enabled = true ∧
        e.settings.rest.interval_seconds ≤ e.rest_active ∧
        is_snoozed e.rest_snooze_until now = false) :=
    fun hp => hhi BreakKind.Rest hp
  cases k
  · exact if_pos h
  · unfold next_due
    rw [if_neg (hm (by decide))]
    exact if_pos h
  · unfold next_due
    rw [if_neg (hm (by decide)), if_neg (hr (by decide))]
    exact if_pos h

theorem break_due_not_mem_reset_events (k : BreakKind) (b : Bool) :
    EngineEvent.BreakDue k ∉ (if b = true then [EngineEvent.DailyReset] else []) := by
  cases b <;> simp

theorem break_due_not_mem_start_break (e : TimerEngine) (k' k : BreakKind) :
    EngineEvent.BreakDue k ∉ (e.start_break k').2 := by
  unfold start_break
  dsimp only
  split <;> simp

/-- `BreakDue(k)` appears among `on_activity`'s events exactly when the call
advances the counters (positive activity, no active break) and `next_due`
selects `k` on the post-increment state. -/
theorem break_due_mem_on_activity (e : TimerEngine) (s now : Nat) (k : BreakKind) :
    EngineEvent.BreakDue k ∈ (e.on_activity s now).2 ↔
      (¬(s = 0 ∨ (e.maybe_daily_reset now).1.active_break.isSome = true) ∧
        (e.postActivityState s now).next_due now = some k) := by
  unfold on_activity
  dsimp only
  split
  · rename_i hcond
    constructor
    · intro hmem
      exact absurd hmem (break_due_not_mem_reset_events k _)
    · rintro ⟨hnc, _⟩
      exact absurd hcond hnc
  · rename_i hcond
    rcases hd : (e.postActivityState s now).next_due now with _ | kind <;> dsimp only
    · constructor
      · intro hmem
        exact absurd hmem (break_due_not_mem_reset_events k _)
      · rintro ⟨_, hsome⟩
        cases hsome
    · split
      · constructor
        · intro hmem
          refine ⟨hcond, ?_⟩
          rcases List.mem_append.1 hmem with hmem' | hst
          · rcases List.mem_append.1 hmem' with h0 | hdue
            · exact absurd h0 (break_due_not_mem_reset_events k _)
            · rcases List.mem_singleton.1 hdue with h
              cases h
              rfl
          · exact absurd hst (break_due_not_mem_start_break _ _ _)
        · rintro ⟨_, hsome⟩
          injection hsome with h
          subst h
          simp
      · constructor
        · intro hmem
          refine ⟨hcond, ?_⟩
          rcases List.mem_append.1 hmem with h0 | hdue
          · exact absurd h0 (break_due_not_mem_reset_events k _)
          · rcases List.mem_singleton.1 hdue with h
            cases h
            rfl
        · rintro ⟨_, hsome⟩
          injection hsome with h
          subst h
          simp

theorem maybe_daily_reset_daily_snooze_of_same_bucket (e : TimerEngine) (now : Nat)
    (h : daily_bucket now e.settings.daily_limit.reset_offset_seconds = e.last_reset_bucket) :
    (e.maybe_daily_reset now).1.daily_snooze_until = e.daily_snooze_until := by
  unfold maybe_daily_reset
  dsimp only
  rw [if_neg (fun hn => hn h)]

theorem postActivityState_daily_snooze_of_same_bucket (e : TimerEngine) (s now : Nat)
    (h : daily_bucket now e.settings.daily_limit.reset_offset_seconds = e.last_reset_bucket) :
    (e.postActivityState s now).daily_snooze_until = e.daily_snooze_until := by
  unfold postActivityState
  dsimp only
  exact maybe_daily_reset_daily_snooze_of_same_bucket e now h

end TimerEngine

/-- Settings with only the daily limit enabled: limit 10s, snooze 100000s,
reset at midnight. -/
def dailyOnlySettings : Settings :=
  { Settings.default with
    micro := { Settings.default.micro with enabled := false }
    rest := { Settings.default.rest with enabled := false }
    daily_limit :=
      { limit_seconds := 10
        snooze_seconds := 100000
        reset_hour_local := 0
        reset_minute_local := 0
        enabled := true } }

/-- Engine with the daily limit snoozed until 100000 (for the C4
counterexample, part one). -/
def dailySnoozedEngine : TimerEngine :=
  ((TimerEngine.new dailyOnlySettings 0).snooze BreakKind.DailyLimit 0).1

/-- Engine with 2700s on every counter and Rest snoozed until 180 (for the C4
counterexample, part two). -/
def restSnoozedEngine : TimerEngine :=
  (((TimerEngine.new Settings.default 0).on_activity 2700 0).1.snooze BreakKind.Rest 0).1

open TimerEngine in
/-- **C4 counterexample.** Two failures of the claim as stated.
(1) Suppression can fail for `DailyLimit`: the daily limit is snoozed until
100000, yet `on_activity(10, 86400)` — a call with `now < snooze_until` that
crosses the daily reset boundary, which clears the daily snooze — emits
`BreakDue(DailyLimit)`.
(2) Expiry can fail when a higher-priority kind is also due: Rest is snoozed
until 180, and at `now = 200 ≥ 180` the Rest counter (2701) is far above its
interval (2700) with Rest enabled, no active break and positive activity,
yet the call emits only `BreakDue(Micro)` — no `BreakDue(Rest)`. -/
theorem snooze_iff_counterexample :
    (dailySnoozedEngine.snooze_until_for BreakKind.DailyLimit = some 100000 ∧
      86400 < 100000 ∧
      EngineEvent.BreakDue BreakKind.DailyLimit ∈ (dailySnoozedEngine.on_activity 10 86400).2) ∧
    (restSnoozedEngine.snooze_until_for BreakKind.Rest = some 180 ∧
      180 ≤ 200 ∧
      restSnoozedEngine.settings.rest.enabled = true ∧
      restSnoozedEngine.settings.rest.interval_seconds ≤ restSnoozedEngine.rest_active ∧
      restSnoozedEngine.active_break = none ∧
      (restSnoozedEngine.on_activity 1 200).2 = [EngineEvent.BreakDue BreakKind.Micro]) := by
  decide

/-- Engine of the concrete Micro snooze scenario: 180s of activity (Micro
due), then Micro snoozed at `t = 180` for the default 150s (until 330). -/
def microSnoozedEngine : TimerEngine :=
  (((TimerEngine.new Settings.default 0).on_activity 180 180).1.snooze BreakKind.Micro 180).1

open TimerEngine in
/-- **C4 (amended).** A kind is snoozed iff `now < snooze_until`.
(1) Suppression: while the kind's `snooze_until` is set and `now <
snooze_until`, `on_activity(s, now)` emits no `BreakDue(kind)` — for
`DailyLimit` provided the call does not cross the daily reset boundary
(crossing it clears the daily snooze).
(2) Expiry: an `on_activity(s, now)` with `now ≥ snooze_until`, the kind
enabled, its counter (as `next_due` sees it, after the increment) at or above
its interval, no active break and `s > 0` emits `BreakDue(kind)`, provided
every higher-priority kind fails its own due test at that instant.
(3) Concretely: snoozing Micro at `t = 180` (snooze 150s) suppresses
`BreakDue(Micro)` at `t = 200` but yields it at `t = 330`. -/
theorem snooze_suppression_and_expiry :
    (∀ (e : TimerEngine) (s now : Nat) (k : BreakKind) (u : Nat),
      e.snooze_until_for k = some u → now < u →
      (k = BreakKind.DailyLimit →
        daily_bucket now e.settings.daily_limit.reset_offset_seconds = e.last_reset_bucket) →
      EngineEvent.BreakDue k ∉ (e.on_activity s now).2) ∧
    (∀ (e : TimerEngine) (s now : Nat) (k : BreakKind) (u : Nat),
      e.snooze_until_for k = some u → u ≤ now → 0 < s → e.active_break = none →
      (e.postActivityState s now).due_test k now →
      (∀ k', kind_priority k' < kind_priority k →
        ¬(e.postActivityState s now).due_test k' now) →
      EngineEvent.BreakDue k ∈ (e.on_activity s now).2) ∧
    ((microSnoozedEngine.on_activity 1 200).2 = [] ∧
      ((microSnoozedEngine.on_activity 1 200).1.on_activity 1 330).2 =
        [EngineEvent.BreakDue BreakKind.Micro]) := by
  refine ⟨?_, ?_, by decide⟩
  · intro e s now k u hu hlt hsb hmem
    rcases (break_due_mem_on_activity e s now k).1 hmem with ⟨_, hsome⟩
    have ht := due_test_of_next_due _ _ _ hsome
    cases k
    · rw [due_test] at ht
      rw [postActivityState_micro_snooze] at ht
      rw [snooze_until_for] at hu
      rw [hu] at ht
      rcases ht with ⟨_, _, hsn⟩
      rw [is_snoozed] at hsn
      simp [hlt] at hsn
    · rw [due_test] at ht
      rw [postActivityState_rest_snooze] at ht
      rw [snooze_until_for] at hu
      rw [hu] at ht
      rcases ht with ⟨_, _, hsn⟩
      rw [is_snoozed] at hsn
      simp [hlt] at hsn
    · rw [due_test] at ht
      rw [postActivityState_daily_snooze_of_same_bucket e s now (hsb rfl)] at ht
      rw [snooze_until_for] at hu
      rw [hu] at ht
      rcases ht with ⟨_, _, hsn⟩
      rw [is_snoozed] at hsn
      simp [hlt] at hsn
  · intro e s now k u hu hle hs hb ht hhi
    refine (break_due_mem_on_activity e s now k).2 ⟨?_, ?_⟩
    · rintro (h0 | hact)
      · omega
      · rw [maybe_daily_reset_active_break, hb] at hact
        simp at hact
    · exact next_due_of_due_test _ _ _ ht hhi

open TimerEngine in
/-- Witness for C4's amended statement: the suppression part at the concrete
snoozed-Micro engine (no `BreakDue(Micro)` at `t = 200 < 330`), and the
expiry part on the same engine at `t = 330`. -/
theorem snooze_suppression_and_expiry_witness :
    EngineEvent.BreakDue BreakKind.Micro ∉ (microSnoozedEngine.on_activity 1 200).2 ∧
    EngineEvent.BreakDue BreakKind.Micro ∈ (microSnoozedEngine.on_activity 1 330).2 :=
  ⟨snooze_suppression_and_expiry.1 microSnoozedEngine 1 200 BreakKind.Micro 330 (by decide)
      (by decide) (fun h => nomatch h),
    snooze_suppression_and_expiry.2.1 microSnoozedEngine 1 330 BreakKind.Micro 330 (by decide)
      (by decide) (by decide) (by decide) (by decide)
      (by intro k' hp; cases k' <;> exact absurd hp (by decide))⟩

namespace TimerEngine

/-- The per-kind countdown `next_break_eta` computes:
`max(interval − counter, remaining snooze time)`. -/
def countdown_for (e : TimerEngine) (k : BreakKind) (now : Nat) : Nat :=
  match k with
  | BreakKind.Micro =>
    max (e.settings.micro.interval_seconds - e.micro_active)
      (snooze_remaining e.micro_snooze_until now)
  | BreakKind.Rest =>
    max (e.settings.rest.interval_seconds - e.rest_active)
      (snooze_remaining e.rest_snooze_until now)
  | BreakKind.DailyLimit =>
    max (e.settings.daily_limit.limit_seconds - e.daily_active)
      (snooze_remaining e.daily_snooze_until now)

theorem minByKey_foldl_mem (x : BreakKind × Nat) (xs : List (BreakKind × Nat)) :
    xs.foldl (fun best y => if etaKeyLt (etaKey y) (etaKey best) then y else best) x ∈
      x :: xs := by
  induction xs generalizing x with
  | nil => simp
  | cons y ys ih =>
    rw [List.foldl_cons]
    have h := ih (if etaKeyLt (etaKey y) (etaKey x) then y else x)
    rcases List.mem_cons.1 h with h' | h'
    · rw [h']
      split
      · exact List.mem_cons_of_mem _ (List.mem_cons_self _ _)
      · exact List.mem_cons_self _ _
    · exact List.mem_cons_of_mem _ (List.mem_cons_of_mem _ h')

theorem minByKey_mem {l : List (BreakKind × Nat)} {p : BreakKind × Nat}
    (h : minByKey l = some p) : p ∈ l := by
  cases l with
  | nil => cases h
  | cons x xs =>
    rw [minByKey] at h
    injection h with h
    rw [← h]
    exact minByKey_foldl_mem x xs

/-- Whatever pair `next_break_eta` returns carries that kind's countdown. -/
theorem next_break_eta_countdown (e : TimerEngine) (now : Nat) (k : BreakKind) (c : Nat)
    (h : e.next_break_eta now = some (k, c)) : c = e.countdown_for k now := by
  unfold next_break_eta at h
  split at h
  · cases h
  · dsimp only at h
    have hm := minByKey_mem h
    simp only [List.mem_append] at hm
    rcases hm with (hA | hB) | hC
    · revert hA
      split <;> intro hA
      · rcases List.mem_singleton.1 hA with heq
        cases heq
        rfl
      · simp at hA
    · revert hB
      split <;> intro hB
      · rcases List.mem_singleton.1 hB with heq
        cases heq
        rfl
      · simp at hB
    · revert hC
      split <;> intro hC
      · split at hC
        · rcases List.mem_singleton.1 hC with heq
          cases heq
          rfl
        · simp at hC
      · simp at hC

theorem snooze_remaining_anti (u : Option Nat) (n1 n2 : Nat) (h : n1 ≤ n2) :
    snooze_remaining u n2 ≤ snooze_remaining u n1 := by
  cases u with
  | none => simp [snooze_remaining]
  | some v =>
    simp only [snooze_remaining, Option.map_some', Option.getD_some]
    omega

theorem countdown_for_anti (e : TimerEngine) (k : BreakKind) (n1 n2 : Nat) (h : n1 ≤ n2) :
    e.countdown_for k n2 ≤ e.countdown_for k n1 := by
  cases k <;>
    exact max_le_max (Nat.le_refl _) (snooze_remaining_anti _ _ _ h)

end TimerEngine

open TimerEngine in
/-- **C6 counterexample.** On a fresh default engine (no active break, no
snooze), `next_break_eta` returns `(Micro, 180)` both at `now = 0` and at
`now = 100`: with no intervening state change the countdown is *constant*,
not strictly decreasing, as `now` advances. -/
theorem eta_not_strictly_decreasing :
    (TimerEngine.new Settings.default 0).active_break = none ∧
    (TimerEngine.new Settings.default 0).next_break_eta 0 = some (BreakKind.Micro, 180) ∧
    (TimerEngine.new Settings.default 0).next_break_eta 100 = some (BreakKind.Micro, 180) ∧
    ¬((180 : Nat) < 180) := by
  decide

open TimerEngine in
/-- **C6 (amended).** `next_break_eta` returns none whenever a break is
active; and, with no intervening state change, each kind's countdown is
non-increasing in `now`: whenever two calls at `now1 ≤ now2` return the same
kind, the countdown at `now2` is at most the countdown at `now1` (it
strictly decreases only while a pending snooze dominates the countdown, and
is constant otherwise). -/
theorem eta_none_while_break_and_monotone :
    (∀ (e : TimerEngine) (now : Nat), e.active_break.isSome = true →
      e.next_break_eta now = none) ∧
    (∀ (e : TimerEngine) (now1 now2 : Nat) (k : BreakKind) (c1 c2 : Nat),
      now1 ≤ now2 → e.next_break_eta now1 = some (k, c1) →
      e.next_break_eta now2 = some (k, c2) → c2 ≤ c1) := by
  constructor
  · intro e now h
    unfold TimerEngine.next_break_eta
    rw [if_pos h]
  · intro e now1 now2 k c1 c2 hle h1 h2
    rw [next_break_eta_countdown e now1 k c1 h1, next_break_eta_countdown e now2 k c2 h2]
    exact countdown_for_anti e k now1 now2 hle

open TimerEngine in
/-- Witness for C6's amended statement: an engine with an active break has no
ETA, and on the snoozed-Micro engine the countdown at `now = 250` is at most
the countdown at `now = 200`. -/
theorem eta_none_while_break_and_monotone_witness :
    dischargeWitnessEngine.next_break_eta 55 = none ∧ (80 : Nat) ≤ 130 :=
  ⟨eta_none_while_break_and_monotone.1 dischargeWitnessEngine 55 (by decide),
    eta_none_while_break_and_monotone.2 microSnoozedEngine 200 250 BreakKind.Micro 130 80
      (by decide) (by decide) (by decide)⟩

/-- Field-for-field conversion of a summed `DailyAggregate` into the
`WeeklySummary` shape. -/
def toWeekly (a : DailyAggregate) : WeeklySummary :=
  ⟨a.active_seconds, a.micro_done, a.rest_done, a.daily_limit_hits, a.skipped⟩

/-- Map lookup with the all-zero default: the aggregate recorded for a day,
or zero if the day is absent. -/
def lookupDay : List (Int × DailyAggregate) → Int → DailyAggregate
  | [], _ => 0
  | q :: t, d => if q.1 = d then q.2 else lookupDay t d

/-- **Spec-side definition** (C9's words): `summarize_week_ending(end_day)`
"sums all fields over the inclusive 7-day window `[end_day−6, end_day]`;
days absent from the map contribute zero". -/
def specWeekSummary (s : AnalyticsStore) (end_day_index : Int) : WeeklySummary :=
  toWeekly (Finset.sum (Finset.Icc (end_day_index - 6) end_day_index)
    (fun d => lookupDay s.by_day d))

theorem WeeklySummary.addAgg_add (w : WeeklySummary) (a b : DailyAggregate) :
    (w.addAgg a).addAgg b = w.addAgg (a + b) := by
  cases w
  cases a
  cases b
  simp only [WeeklySummary.addAgg, DailyAggregate.add_mk, WeeklySummary.mk.injEq]
  omega

theorem WeeklySummary.addAgg_zero (w : WeeklySummary) : w.addAgg 0 = w := by
  cases w
  simp only [WeeklySummary.addAgg, DailyAggregate.zero_def, WeeklySummary.mk.injEq]
  omega

theorem WeeklySummary.zero_addAgg (a : DailyAggregate) :
    WeeklySummary.zero.addAgg a = toWeekly a := by
  cases a
  simp only [WeeklySummary.addAgg, WeeklySummary.zero, toWeekly, WeeklySummary.mk.injEq]
  omega

theorem foldl_addAgg_eq (fl : List (Int × DailyAggregate)) (w : WeeklySummary) :
    fl.foldl (fun summary p => summary.addAgg p.2) w = w.addAgg (fl.map Prod.snd).sum := by
  induction fl generalizing w with
  | nil => simp [WeeklySummary.addAgg_zero]
  | cons p t ih =>
    rw [List.foldl_cons, ih, List.map_cons, List.sum_cons, WeeklySummary.addAgg_add]

theorem lookupDay_eq_zero (t : List (Int × DailyAggregate)) (d : Int)
    (h : ∀ q ∈ t, d ≠ q.1) : lookupDay t d = 0 := by
  induction t with
  | nil => rfl
  | cons q t ih =>
    rw [lookupDay, if_neg (Ne.symm (h q (List.mem_cons_self q t)))]
    exact ih fun r hr => h r (List.mem_cons_of_mem q hr)

/-- On a map with strictly sorted (hence unique) keys, folding the addition
over the entries inside `[lo, hi]` equals the sum of the per-day lookups over
`Finset.Icc lo hi`. -/
theorem filter_sum_eq_Icc (l : List (Int × DailyAggregate))
    (hl : List.Pairwise (fun p q => p.1 < q.1) l) (lo hi : Int) :
    ((l.filter fun p => decide (lo ≤ p.1 ∧ p.1 ≤ hi)).map Prod.snd).sum =
      Finset.sum (Finset.Icc lo hi) (fun d => lookupDay l d) := by
  induction l with
  | nil => simp [lookupDay]
  | cons p t ih =>
    obtain ⟨hhead, ht⟩ := List.pairwise_cons.1 hl
    have hzero : lookupDay t p.1 = 0 :=
      lookupDay_eq_zero t p.1 fun q hq => Int.ne_of_lt (hhead q hq)
    have hlk : ∀ d, lookupDay (p :: t) d = if p.1 = d then p.2 else lookupDay t d :=
      fun d => rfl
    by_cases hin : lo ≤ p.1 ∧ p.1 ≤ hi
    · have hmem : p.1 ∈ Finset.Icc lo hi := Finset.mem_Icc.2 hin
      rw [List.filter_cons_of_pos (by simpa using hin), List.map_cons, List.sum_cons,
        ih ht]
      rw [(Finset.add_sum_erase (Finset.Icc lo hi)
        (fun d => lookupDay (p :: t) d) hmem).symm]
      congr 1
      · rw [lookupDay, if_pos rfl]
      · have e1 : ∑ d ∈ (Finset.Icc lo hi).erase p.1, lookupDay (p :: t) d =
            ∑ d ∈ (Finset.Icc lo hi).erase p.1, lookupDay t d :=
          Finset.sum_congr rfl (fun d hd => by
            rw [lookupDay, if_neg (Ne.symm ((Finset.mem_erase.1 hd).1))])
        rw [e1, Finset.sum_erase _ hzero]
    · rw [List.filter_cons_of_neg (by simpa using hin), ih ht]
      refine Finset.sum_congr rfl (fun d hd => ?_)
      have hne : ¬(p.1 = d) := fun h => hin (by rw [h]; exact Finset.mem_Icc.1 hd)
      rw [hlk d, if_neg hne]

/-- The source `summarize_week_ending` agrees with the spec-side 7-day-window
sum on every store satisfying the map invariant. -/
theorem summarize_eq_spec (s : AnalyticsStore) (end_day_index : Int) (hs : s.Inv) :
    s.summarize_week_ending end_day_index = specWeekSummary s end_day_index := by
  unfold AnalyticsStore.summarize_week_ending specWeekSummary
  dsimp only
  rw [foldl_addAgg_eq, filter_sum_eq_Icc s.by_day hs, WeeklySummary.zero_addAgg]

theorem lookupDay_upsert_ne (l : List (Int × DailyAggregate)) (day d : Int)
    (f : DailyAggregate → DailyAggregate) (hne : d ≠ day) :
    lookupDay (upsertDay l day f) d = lookupDay l d := by
  induction l with
  | nil =>
    simp only [upsertDay, lookupDay]
    rw [if_neg (Ne.symm hne)]
  | cons q t ih =>
    rw [upsertDay]
    split
    · simp only [lookupDay]
      rw [if_neg (Ne.symm hne)]
    · split
      · rename_i hdk
        simp only [lookupDay]
        rw [if_neg (Ne.symm hne),
          if_neg (show ¬(q.1 = d) from fun h => hne ((hdk.trans h).symm))]
      · simp only [lookupDay]
        split
        · rfl
        · exact ih

theorem upsertDay_mem_key (l : List (Int × DailyAggregate)) (day : Int)
    (f : DailyAggregate → DailyAggregate) :
    ∀ q ∈ upsertDay l day f, q.1 = day ∨ q.1 ∈ l.map Prod.fst := by
  induction l with
  | nil =>
    intro q hq
    rw [upsertDay] at hq
    rcases List.mem_singleton.1 hq with h
    exact Or.inl (h ▸ rfl)
  | cons r t ih =>
    intro q hq
    rw [upsertDay] at hq
    revert hq
    split
    · intro hq
      rcases List.mem_cons.1 hq with h | h
      · exact Or.inl (h ▸ rfl)
      · exact Or.inr (List.mem_map.2 ⟨q, h, rfl⟩)
    · split
      · intro hq
        rcases List.mem_cons.1 hq with h | h
        · exact Or.inl (h ▸ rfl)
        · exact Or.inr (List.mem_map.2 ⟨q, List.mem_cons_of_mem r h, rfl⟩)
      · intro hq
        rcases List.mem_cons.1 hq with h | h
        · exact Or.inr (by rw [h]; exact List.mem_map.2 ⟨r, List.mem_cons_self r t, rfl⟩)
        · rcases ih q h with h' | h'
          · exact Or.inl h'
          · exact Or.inr (by
              rcases List.mem_map.1 h' with ⟨r', hr', hr''⟩
              exact List.mem_map.2 ⟨r', List.mem_cons_of_mem r hr', hr''⟩)

theorem upsertDay_pairwise (l : List (Int × DailyAggregate)) (day : Int)
    (f : DailyAggregate → DailyAggregate)
    (hl : List.Pairwise (fun p q => p.1 < q.1) l) :
    List.Pairwise (fun p q => p.1 < q.1) (upsertDay l day f) := by
  induction l with
  | nil =>
    rw [upsertDay]
    exact List.pairwise_singleton _ _
  | cons r t ih =>
    obtain ⟨hhead, ht⟩ := List.pairwise_cons.1 hl
    rw [upsertDay]
    split
    · rename_i hlt
      refine List.pairwise_cons.2 ⟨?_, hl⟩
      intro q hq
      rcases List.mem_cons.1 hq with h | h
      · rw [h]
        exact hlt
      · exact lt_trans hlt (hhead q h)
    · split
      · rename_i hne heq
        refine List.pairwise_cons.2 ⟨?_, ht⟩
        intro q hq
        rw [heq]
        exact hhead q hq
      · rename_i hge hne
        refine List.pairwise_cons.2 ⟨?_, ih ht⟩
        intro q hq
        rcases upsertDay_mem_key t day f q hq with h | h
        · rw [h]
          omega
        · rcases List.mem_map.1 h with ⟨r', hr', hr''⟩
          rw [← hr'']
          exact hhead r' hr'

/-- **C9.** On any store satisfying the map invariant,
`summarize_week_ending(end_day)` is exactly the field-wise sum of the daily
aggregates over the inclusive window `[end_day − 6, end_day]`, with absent
days contributing zero; and activity recorded on any day outside that window
— in particular `end_day − 7` — leaves the summary entirely unchanged. -/
theorem summarize_week_window (s : AnalyticsStore) (end_day_index d : Int) (n : Nat)
    (hs : s.Inv) (hd : d < end_day_index - 6 ∨ end_day_index < d) :
    s.summarize_week_ending end_day_index = specWeekSummary s end_day_index ∧
    (s.record_activity d n).summarize_week_ending end_day_index =
      s.summarize_week_ending end_day_index := by
  have h1 := summarize_eq_spec s end_day_index hs
  have hInv2 : (s.record_activity d n).Inv := upsertDay_pairwise s.by_day d _ hs
  have h2 := summarize_eq_spec (s.record_activity d n) end_day_index hInv2
  refine ⟨h1, ?_⟩
  rw [h1, h2]
  unfold specWeekSummary
  congr 1
  refine Finset.sum_congr rfl (fun x hx => ?_)
  have hx' := Finset.mem_Icc.1 hx
  exact lookupDay_upsert_ne s.by_day d x _ (by omega)

/-- Witness for C9 at a concrete store (the analytics unit test data, plus an
entry on day 4 = `end − 7` that the summary must ignore). -/
theorem summarize_week_window_witness :
    (AnalyticsStore.mk [(4, ⟨500, 2, 0, 0, 0⟩), (10, ⟨120, 1, 0, 0, 0⟩),
        (11, ⟨240, 0, 1, 0, 1⟩)]).summarize_week_ending 11 =
      specWeekSummary (AnalyticsStore.mk [(4, ⟨500, 2, 0, 0, 0⟩), (10, ⟨120, 1, 0, 0, 0⟩),
        (11, ⟨240, 0, 1, 0, 1⟩)]) 11 ∧
    ((AnalyticsStore.mk [(4, ⟨500, 2, 0, 0, 0⟩), (10, ⟨120, 1, 0, 0, 0⟩),
        (11, ⟨240, 0, 1, 0, 1⟩)]).record_activity 4 77).summarize_week_ending 11 =
      (AnalyticsStore.mk [(4, ⟨500, 2, 0, 0, 0⟩), (10, ⟨120, 1, 0, 0, 0⟩),
        (11, ⟨240, 0, 1, 0, 1⟩)]).summarize_week_ending 11 :=
  summarize_week_window
    (AnalyticsStore.mk [(4, ⟨500, 2, 0, 0, 0⟩), (10, ⟨120, 1, 0, 0, 0⟩),
      (11, ⟨240, 0, 1, 0, 1⟩)]) 11 4 77
    (by unfold AnalyticsStore.Inv; decide) (by decide)

theorem removeProfileKey_sublist (l : List (String × Profile)) (id : String) :
    (removeProfileKey l id).Sublist l := by
  induction l with
  | nil => simp [removeProfileKey]
  | cons q t ih =>
    rw [removeProfileKey]
    split
    · exact List.sublist_cons_self q t
    · exact List.Sublist.cons₂ q ih

/-- **C10.** On any store satisfying the map invariant: removing the active
profile reassigns `active_id` to the lowest remaining key (none iff the store
became empty); removing a non-active profile leaves the active selection
unchanged. -/
theorem profile_remove_active_lowest (s : ProfileStore) (id : String) (hs : s.Inv) :
    (s.active_id = some id →
      (((s.remove id).1.active_id = none ↔ (s.remove id).1.profiles = []) ∧
        (∀ a, (s.remove id).1.active_id = some a →
          (∃ p, (a, p) ∈ (s.remove id).1.profiles) ∧
          ∀ q ∈ (s.remove id).1.profiles, a ≤ q.1))) ∧
    (s.active_id ≠ some id → (s.remove id).1.active_id = s.active_id) := by
  constructor
  · intro hact
    unfold ProfileStore.remove
    dsimp only
    rw [if_pos hact]
    have hsorted : List.Pairwise (fun p q => p.1 < q.1) (removeProfileKey s.profiles id) :=
      hs.sublist (removeProfileKey_sublist s.profiles id)
    rcases hrem : removeProfileKey s.profiles id with _ | ⟨q, rest⟩
    · exact ⟨by simp, fun a ha => by simp at ha⟩
    · rw [hrem] at hsorted
      obtain ⟨hhead, _⟩ := List.pairwise_cons.1 hsorted
      refine ⟨by simp, fun a ha => ?_⟩
      simp only [List.head?_cons, Option.map_some'] at ha
      injection ha with ha
      subst ha
      refine ⟨⟨q.2, ?_⟩, ?_⟩
      · exact List.mem_cons_self q rest
      · intro r hr
        rcases List.mem_cons.1 hr with h | h
        · rw [h]
        · exact le_of_lt (hhead r h)
  · intro hne
    unfold ProfileStore.remove
    dsimp only
    rw [if_neg hne]

/-- Profiles used by the C10 witness. -/
def alphaProfile : Profile := ⟨"alpha", "Alpha", Settings.default⟩

/-- Profiles used by the C10 witness. -/
def betaProfile : Profile := ⟨"beta", "Beta", Settings.default⟩

/-- Store used by the C10 witness: two profiles, `"alpha"` active. -/
def twoProfileStore : ProfileStore :=
  ⟨[("alpha", alphaProfile), ("beta", betaProfile)], some "alpha"⟩

/-- Witness for C10: removing the active `"alpha"` from the two-profile store
reassigns the active id to the lowest remaining key. -/
theorem profile_remove_active_lowest_witness :
    ((twoProfileStore.remove "alpha").1.active_id = none ↔
      (twoProfileStore.remove "alpha").1.profiles = []) ∧
    (∀ a, (twoProfileStore.remove "alpha").1.active_id = some a →
      (∃ p, (a, p) ∈ (twoProfileStore.remove "alpha").1.profiles) ∧
      ∀ q ∈ (twoProfileStore.remove "alpha").1.profiles, a ≤ q.1) :=
  (profile_remove_active_lowest twoProfileStore "alpha"
    (by
      unfold ProfileStore.Inv twoProfileStore
      refine List.pairwise_cons.2 ⟨?_, List.pairwise_singleton _ _⟩
      intro q hq
      rcases List.mem_singleton.1 hq with h
      rw [h]
      exact String.lt_iff_toList_lt.mpr (by decide))).1 rfl

end Lazaro
